import Mathlib

/-!
Shallow embedding of the Battleship game core (`src/Battleship_Game.py`):
board grids, the ship manager (fleet), placement validation, and the
computer player's targeting engine (hit stack, directional hunt,
probability map).  Cells are the characters the source uses:
space = empty, 'X' = ship (on a ship board) or hit (on an attack board),
'-' = miss.
-/

namespace Battleship

/-- Modelled from the spec: the board size comes from `config.json`, which is
not part of the sources; the spec fixes N = 8 (coordinates are "integers in
[0, N) where N is board size (fixed per game, e.g. 8)", and the board is
displayed with column headers A through H). -/
def BOARD_SIZE : Nat := 8

abbrev Cell := Char

abbrev Grid := List (List Cell)

abbrev Coord := Nat × Nat

/-- Fleet state: the `ship_locations` dictionary of `ShipManager`, an
insertion-ordered mapping from ship name to its list of coordinates. -/
abbrev Fleet := List (String × List Coord)

/-- The test `cell in ["-", "X"]` used throughout the source. -/
def attacked (c : Cell) : Bool := c == '-' || c == 'X'

/-- In-bounds read of a grid cell, `grid[r][c]` for indices the source only
uses after bounds checks. -/
def gridGet (g : Grid) (r c : Nat) : Cell := (g.getD r []).getD c ' '

/-- In-bounds write of a grid cell, `grid[r][c] = v`. -/
def setCell (g : Grid) (r c : Nat) (v : Cell) : Grid :=
  g.set r ((g.getD r []).set c v)

/-- Python list indexing `l[i]`: non-negative indices read from the front,
indices in [-len, -1] wrap to the end, anything else raises IndexError
(modelled as `none`). -/
def pyGet {α : Type} (l : List α) (i : Int) : Option α :=
  if 0 ≤ i then l.get? i.toNat
  else if -(l.length : Int) ≤ i then l.get? (l.length - (-i).toNat)
  else none

/-- The fresh all-blank BOARD_SIZE × BOARD_SIZE grid built by
`ShipManager.__init__`. -/
def blankGrid : Grid :=
  List.replicate BOARD_SIZE (List.replicate BOARD_SIZE ' ')

/-- ShipManager state: the player's grid together with the
`ship_locations` mapping. -/
structure ShipManager where
  grid : Grid
  ship_locations : Fleet
deriving Repr, DecidableEq

/-- Dictionary lookup on the insertion-ordered `ship_locations` mapping
(first matching key). -/
def flookup (locs : Fleet) (s : String) : Option (List Coord) :=
  match locs with
  | [] => none
  | e :: rest => if e.1 == s then some e.2 else flookup rest s

/-- The statement `self.ship_locations.setdefault(ship, []).append(coord)`:
append to the first entry with this key, or add a new entry at the end. -/
def appendLoc (locs : Fleet) (s : String) (rc : Coord) : Fleet :=
  match locs with
  | [] => [(s, [rc])]
  | e :: rest =>
      if e.1 == s then (e.1, e.2 ++ [rc]) :: rest
      else e :: appendLoc rest s rc

/-- One iteration of the deployment loop: mark the cell and record the
coordinate for the ship. -/
def deployStep (ship : String) (sm : ShipManager) (rc : Coord) : ShipManager :=
  { grid := setCell sm.grid rc.1 rc.2 'X',
    ship_locations := appendLoc sm.ship_locations ship rc }

/-- ShipManager.deploy_ship: mark each cell of the run 'X' and append its
coordinate to the ship's entry, in run order. -/
def deploy_ship (sm : ShipManager) (ship : String) (length row column : Nat)
    (orientation : Char) : ShipManager :=
  if orientation == 'H' then
    (List.range length).foldl (fun sm i => deployStep ship sm (row, column + i)) sm
  else
    (List.range length).foldl (fun sm i => deployStep ship sm (row + i, column)) sm

/-- ShipManager.check_sunk_ship restricted to its effect on
`ship_locations`: scan the entries in order; from an entry containing the
coordinate remove its first occurrence; if that leaves the entry empty,
delete the entry and stop (`del` followed by `break`), otherwise keep
scanning (the source has no `break` in the non-empty branch). -/
def check_sunk_ship (locs : Fleet) (rc : Coord) : Fleet :=
  match locs with
  | [] => []
  | (ship, positions) :: rest =>
      if rc ∈ positions then
        let positions' := positions.erase rc
        if positions'.isEmpty then rest
        else (ship, positions') :: check_sunk_ship rest rc
      else (ship, positions) :: check_sunk_ship rest rc

/-- ShipManager.all_ships_sunk: `all(not positions for positions in
self.ship_locations.values())`. -/
def all_ships_sunk (locs : Fleet) : Bool :=
  locs.all (fun e => e.2.isEmpty)

/-- BoardValidator.validate_placement. -/
def validate_placement (length : Nat) (row column : Nat) (orientation : Char) : Bool :=
  if orientation == 'H' then column + length ≤ BOARD_SIZE
  else row + length ≤ BOARD_SIZE

/-- The list of cells `check_overlap` reads, in read order:
`range(column, column+length)` along the row for 'H', otherwise
`range(row, row+length)` down the column. -/
def runCells (row column : Int) (orientation : Char) (length : Nat) : List (Int × Int) :=
  if orientation == 'H' then (List.range length).map (fun i => (row, column + i))
  else (List.range length).map (fun i => (row + i, column))

/-- One Python read `grid[r][c]` with Int indices: `none` is IndexError. -/
def cellRead (g : Grid) (p : Int × Int) : Option Cell :=
  match pyGet g p.1 with
  | none => none
  | some rowL => pyGet rowL p.2

/-- The short-circuiting `any(grid[..] == "X" ...)` wrapped in
`try/except IndexError: return True`: an IndexError anywhere before a
match yields True, a match yields True, a completed scan yields False. -/
def overlapScan (g : Grid) (cells : List (Int × Int)) : Bool :=
  match cells with
  | [] => false
  | p :: rest =>
      match cellRead g p with
      | none => true
      | some c => if c == 'X' then true else overlapScan g rest

/-- BoardValidator.check_overlap with Python indexing semantics. -/
def check_overlap (g : Grid) (row column : Int) (orientation : Char)
    (length : Nat) : Bool :=
  overlapScan g (runCells row column orientation length)

/-- BasePlayer.can_place_ship: the run must stay on the board and contain no
attacked cell of the caller's attack board.  The `opponent` argument is
carried exactly as in the source, which never reads it. -/
def can_place_ship (opponent : Fleet) (ag : Grid) (row col length : Nat)
    (orientation : Char) : Bool :=
  if orientation == 'H' then
    if BOARD_SIZE < col + length then false
    else (List.range length).all (fun i => !attacked (gridGet ag row (col + i)))
  else
    if BOARD_SIZE < row + length then false
    else (List.range length).all (fun i => !attacked (gridGet ag (row + i) col))

/-- The probability map as a flat row-major list of BOARD_SIZE² weights,
exactly the C-order flattening `np.argmax` works on.  Weights are the
non-negative integers the numpy array holds. -/
abbrev ProbMap := List Nat

/-- Weight of cell (r, c) of a probability map. -/
def pmGet (pm : ProbMap) (r c : Nat) : Nat := pm.getD (r * BOARD_SIZE + c) 0

/-- The statement `self.probability_map[r][c] += 1`. -/
def pmIncr (pm : ProbMap) (r c : Nat) : ProbMap :=
  pm.set (r * BOARD_SIZE + c) (pm.getD (r * BOARD_SIZE + c) 0 + 1)

/-- The initialization double loop of update_probability_map: attacked cells
get weight 0, all other cells weight 1. -/
def pmInit (ag : Grid) : ProbMap :=
  (List.range (BOARD_SIZE * BOARD_SIZE)).map
    (fun idx => if attacked (gridGet ag (idx / BOARD_SIZE) (idx % BOARD_SIZE)) then 0 else 1)

/-- The horizontal increment loop for one placement: each not-yet-attacked
cell of the run gains 1. -/
def pmAddRunH (ag : Grid) (row col length : Nat) (pm : ProbMap) : ProbMap :=
  (List.range length).foldl
    (fun pm i => if !attacked (gridGet ag row (col + i)) then pmIncr pm row (col + i) else pm) pm

/-- The vertical increment loop for one placement. -/
def pmAddRunV (ag : Grid) (row col length : Nat) (pm : ProbMap) : ProbMap :=
  (List.range length).foldl
    (fun pm i => if !attacked (gridGet ag (row + i) col) then pmIncr pm (row + i) col else pm) pm

/-- The per-ship position scan of update_probability_map: every board
position, horizontal then vertical. -/
def pmAddShip (opponent : Fleet) (ag : Grid) (length : Nat) (pm : ProbMap) : ProbMap :=
  (List.range BOARD_SIZE).foldl
    (fun pm row =>
      (List.range BOARD_SIZE).foldl
        (fun pm col =>
          let pm := if can_place_ship opponent ag row col length 'H'
                    then pmAddRunH ag row col length pm else pm
          if can_place_ship opponent ag row col length 'V'
          then pmAddRunV ag row col length pm else pm)
        pm)
    pm

/-- ComputerPlayer.update_probability_map: reset, initialize, then
accumulate every ship length of the configured SHIP_TYPES.  `shipTypes`
stands for the global SHIP_TYPES list read from config.json; `opponent` is
the opponent's fleet mapping, passed as in the source. -/
def update_probability_map (shipTypes : List (String × Nat)) (opponent : Fleet)
    (ag : Grid) : ProbMap :=
  shipTypes.foldl (fun pm st => pmAddShip opponent ag st.2 pm) (pmInit ag)

/-- Index of the first occurrence of the maximum of a flat array: the value
`np.argmax` returns (numpy scans in C order and keeps the earliest index
attaining the maximum; on an empty list we return 0, a case the game never
produces). -/
def np_argmax (l : List Nat) : Nat :=
  match l with
  | [] => 0
  | v :: rest =>
      if rest.getD (np_argmax rest) 0 ≤ v then 0 else np_argmax rest + 1

/-- The expression `np.unravel_index(np.argmax(pm), pm.shape)` for the
BOARD_SIZE × BOARD_SIZE map. -/
def select_from_map (pm : ProbMap) : Coord :=
  (np_argmax pm / BOARD_SIZE, np_argmax pm % BOARD_SIZE)

/-- Hunt state and attack board of the ComputerPlayer. -/
structure CompState where
  last_hit : Option Coord
  hit_stack : List Coord
  direction : Option Char
  attack_grid : Grid
deriving Repr, DecidableEq

/-- Which branch of take_turn produced the coordinate: the hit-stack pop,
the directional/adjacent hunt around last_hit, or the probability map. -/
inductive Mode where
  | stack : Mode
  | hunt : Mode
  | prob : Mode
deriving Repr, DecidableEq

/-- The candidate filter used by take_turn: keep in-bounds cells whose
attack-board mark is neither '-' nor 'X', converting the surviving signed
offsets back to coordinates. -/
def filterMoves (ag : Grid) (ms : List (Int × Int)) : List Coord :=
  (ms.filter (fun p =>
      decide (0 ≤ p.1) && decide (p.1 < (BOARD_SIZE : Int)) &&
      decide (0 ≤ p.2) && decide (p.2 < (BOARD_SIZE : Int)) &&
      !attacked (gridGet ag p.1.toNat p.2.toNat))).map
    (fun p => (p.1.toNat, p.2.toNat))

/-- The possible_moves computation of the second-priority branch: the two
cells along the known direction, or all four adjacent cells when the
direction is unknown, filtered to in-bounds not-yet-attacked. -/
def huntCandidates (s : CompState) (r c : Nat) : List Coord :=
  let moves : List (Int × Int) :=
    match s.direction with
    | some d =>
        if d == 'H' then [((r : Int), (c : Int) - 1), ((r : Int), (c : Int) + 1)]
        else [((r : Int) - 1, (c : Int)), ((r : Int) + 1, (c : Int))]
    | none =>
        [((r : Int) - 1, (c : Int)), ((r : Int) + 1, (c : Int)),
         ((r : Int), (c : Int) - 1), ((r : Int), (c : Int) + 1)]
  filterMoves s.attack_grid moves

/-- The selection phase of ComputerPlayer.take_turn: choose the coordinate
to attack and apply the selection's own state changes (stack pop, hunt
reset on exhaustion).  `pick` resolves `random.choice` by indexing the
filtered candidate list; the returned `Mode` records which branch chose. -/
def selectMove (shipTypes : List (String × Nat)) (opponent : Fleet) (pick : Nat)
    (s : CompState) : Coord × CompState × Mode :=
  match s.hit_stack with
  | m :: rest => (m, { s with hit_stack := rest }, Mode.stack)
  | [] =>
      match s.last_hit with
      | some (r, c) =>
          match huntCandidates s r c with
          | v :: vs =>
              ((v :: vs).getD (pick % (v :: vs).length) v, s, Mode.hunt)
          | [] =>
              let s' : CompState :=
                { s with last_hit := none, direction := none, hit_stack := [] }
              (select_from_map (update_probability_map shipTypes opponent s'.attack_grid),
               s', Mode.prob)
      | none =>
          (select_from_map (update_probability_map shipTypes opponent s.attack_grid),
           s, Mode.prob)

/-- The hit branch of take_turn after the attack board is marked: infer the
direction when last_hit is set, queue the two extension cells past the
extremities (the `else` of the direction test treats an unknown direction
as vertical, as the source does), and record the new last_hit. -/
def hitUpdate (s : CompState) (rc : Coord) : CompState :=
  let row := rc.1
  let column := rc.2
  let ag := setCell s.attack_grid row column 'X'
  match s.last_hit with
  | some (lr, lc) =>
      let dir := if row == lr then some 'H'
                 else if column == lc then some 'V'
                 else s.direction
      let next_moves : List (Int × Int) :=
        if dir == some 'H' then
          [((row : Int), (min column lc : Int) - 1), ((row : Int), (max column lc : Int) + 1)]
        else
          [((min row lr : Int) - 1, (column : Int)), ((max row lr : Int) + 1, (column : Int))]
      let valid := filterMoves ag next_moves
      { s with attack_grid := ag, direction := dir,
               hit_stack := s.hit_stack ++ valid, last_hit := some rc }
  | none =>
      { s with attack_grid := ag, last_hit := some rc }

/-- ComputerPlayer.take_turn: select a coordinate, attack the opponent's
ship grid there, update the attack board and hunt state, and register the
hit on the opponent's fleet.  Returns the attacked coordinate, the new
computer state, and the opponent's new fleet mapping. -/
def take_turn (shipTypes : List (String × Nat)) (pick : Nat) (s : CompState)
    (oppGrid : Grid) (oppLocs : Fleet) : Coord × CompState × Fleet :=
  let sel := selectMove shipTypes oppLocs pick s
  let rc := sel.1
  let s1 := sel.2.1
  if gridGet oppGrid rc.1 rc.2 == 'X' then
    (rc, hitUpdate s1 rc, check_sunk_ship oppLocs rc)
  else
    (rc, { s1 with attack_grid := setCell s1.attack_grid rc.1 rc.2 '-' }, oppLocs)

/-- The fresh computer state built by ComputerPlayer.__init__. -/
def initCompState : CompState :=
  { last_hit := none, hit_stack := [], direction := none, attack_grid := blankGrid }

/-- The run of coordinates a placement covers (Nat form, used by the
spec-level fit predicates and probability map). -/
def runCoords (row col : Nat) (o : Char) (L : Nat) : List Coord :=
  if o == 'H' then (List.range L).map (fun i => (row, col + i))
  else (List.range L).map (fun i => (row + i, col))

/-- Modelled from the spec: the run of a given length "fits on the board at
that position without already having attacked-Miss or attacked-Hit cells in
the run". -/
def specFits (ag : Grid) (row col : Nat) (o : Char) (L : Nat) : Bool :=
  (if o == 'H' then decide (col + L ≤ BOARD_SIZE) else decide (row + L ≤ BOARD_SIZE)) &&
  (runCoords row col o L).all (fun p => !attacked (gridGet ag p.1 p.2))

/-- Modelled from the spec: "increment the weight of every not-yet-attacked
cell in that run by 1". -/
def specIncrRun (ag : Grid) (cells : List Coord) (pm : ProbMap) : ProbMap :=
  cells.foldl (fun pm p => if !attacked (gridGet ag p.1 p.2) then pmIncr pm p.1 p.2 else pm) pm

/-- Modelled from the spec: the accumulation pass for one ship length over
"every board position and orientation (Horizontal, Vertical)". -/
def specAddLength (ag : Grid) (L : Nat) (pm : ProbMap) : ProbMap :=
  (List.range BOARD_SIZE).foldl (fun pm row =>
    (List.range BOARD_SIZE).foldl (fun pm col =>
      (['H', 'V'] : List Char).foldl (fun pm o =>
        if specFits ag row col o L then specIncrRun ag (runCoords row col o L) pm else pm)
        pm)
      pm)
    pm

/-- Modelled from the spec: the probability-map computation of §4.3
(initialize attacked cells to 0 and the rest to 1, then accumulate),
parameterized by the list of ship lengths it accumulates. -/
def specProbabilityMap (lengths : List Nat) (ag : Grid) : ProbMap :=
  lengths.foldl (fun pm L => specAddLength ag L pm) (pmInit ag)

/-- The ship lengths of the ships still present (unsunk) in the opponent's
fleet mapping, kept in SHIP_TYPES order. -/
def remaining_lengths (shipTypes : List (String × Nat)) (opponent : Fleet) : List Nat :=
  (shipTypes.filter (fun st => (flookup opponent st.1).isSome)).map (fun st => st.2)

/-- A ship length fits through a cell: some placement of that length passes
can_place_ship and covers the cell. -/
def fitsThrough (opponent : Fleet) (ag : Grid) (L r c : Nat) : Prop :=
  ∃ row col o, can_place_ship opponent ag row col L o = true ∧ (r, c) ∈ runCoords row col o L

/-- Erase the first occurrence of the coordinate from every entry (a no-op
on entries not containing it). -/
def removeHitAll (locs : Fleet) (rc : Coord) : Fleet :=
  locs.map (fun e => (e.1, e.2.erase rc))

/-- Index of the first fleet entry whose coordinate list is exactly the
attacked coordinate (the entry check_sunk_ship would empty and delete). -/
def sunkEntryIdx (locs : Fleet) (rc : Coord) : Option Nat :=
  match locs with
  | [] => none
  | e :: rest =>
      if e.2 == [rc] then some 0
      else (sunkEntryIdx rest rc).map (fun i => i + 1)

/-- Observed behaviour of check_sunk_ship, stated by position: the
coordinate is removed from every entry up to the first entry it empties;
that entry is deleted and everything after it is untouched; when no entry
is emptied the removal runs over the whole mapping. -/
def registerHitResult (locs : Fleet) (rc : Coord) : Fleet :=
  match sunkEntryIdx locs rc with
  | some i => removeHitAll (locs.take i) rc ++ locs.drop (i + 1)
  | none => removeHitAll locs rc

/-! Concrete game scenarios used to settle the claims. -/

/-- Attack board with a single hit at (0,0). -/
def c1AttackGrid : Grid := setCell blankGrid 0 0 'X'

/-- Opponent ship grid holding a length-2 ship on cells (0,0) and (0,1). -/
def c1OppGrid : Grid := setCell (setCell blankGrid 0 0 'X') 0 1 'X'

/-- Computer state after its hit at (0,0): mid-hunt, no direction yet. -/
def c1State : CompState :=
  { last_hit := some (0, 0), hit_stack := [], direction := none, attack_grid := c1AttackGrid }

/-- Opponent fleet in which the Destroyer has only (0,1) left. -/
def c1Fleet : Fleet := [("Destroyer", [(0, 1)])]

/-- Attack board with a hit at (0,0) and a miss at (0,1). -/
def c6AttackGrid : Grid := setCell (setCell blankGrid 0 1 '-') 0 0 'X'

/-- Computer state hunting horizontally from (0,0) whose two directional
candidates (0,-1) and (0,1) are both unavailable. -/
def c6State : CompState :=
  { last_hit := some (0, 0), hit_stack := [], direction := some 'H',
    attack_grid := c6AttackGrid }

/-- Modelled from the spec: a two-ship SHIP_TYPES configuration (the ship
list itself lives in config.json, which is not under src; the spec names
the Destroyer of length 2 and standard fleets carry a length-3 cruiser). -/
def c2ShipTypes : List (String × Nat) := [("Cruiser", 3), ("Destroyer", 2)]

/-- Human fleet for the C2 trace: Cruiser on (2,1)-(2,3), Destroyer on
(7,0)-(7,1), deployed through deploy_ship. -/
def c2HumanSM : ShipManager :=
  deploy_ship
    (deploy_ship { grid := blankGrid, ship_locations := [] } "Cruiser" 3 2 1 'H')
    "Destroyer" 2 7 0 'H'

/-- Computer turn 1 of the trace (probability mode selects (2,2)). -/
def c2T1 : Coord × CompState × Fleet :=
  take_turn c2ShipTypes 0 initCompState c2HumanSM.grid c2HumanSM.ship_locations

/-- Computer turn 2 (adjacent hunt, pick index 3 selects (2,3)). -/
def c2T2 : Coord × CompState × Fleet :=
  take_turn c2ShipTypes 3 c2T1.2.1 c2HumanSM.grid c2T1.2.2

/-- Computer turn 3 (stack pop (2,1); the hit re-queues (2,4)). -/
def c2T3 : Coord × CompState × Fleet :=
  take_turn c2ShipTypes 0 c2T2.2.1 c2HumanSM.grid c2T2.2.2

/-- Computer turn 4 (stack pop (2,4), a miss). -/
def c2T4 : Coord × CompState × Fleet :=
  take_turn c2ShipTypes 0 c2T3.2.1 c2HumanSM.grid c2T3.2.2

/-- Computer turn 5 (stack pop (2,0), a miss). -/
def c2T5 : Coord × CompState × Fleet :=
  take_turn c2ShipTypes 0 c2T4.2.1 c2HumanSM.grid c2T4.2.2

/-! Generic helper lemmas about list writes and folds. -/

theorem getD_set_of_ne {α : Type} (l : List α) (i j : Nat) (v d : α) (h : i ≠ j) :
    (l.set i v).getD j d = l.getD j d := by
  rw [List.getD_eq_getElem?_getD, List.getD_eq_getElem?_getD, List.getElem?_set_ne h]

theorem getD_set_self {α : Type} (l : List α) (i : Nat) (v d : α) (h : i < l.length) :
    (l.set i v).getD i d = v := by
  rw [List.getD_eq_getElem?_getD, List.getElem?_set_eq_of_lt v h]
  rfl

theorem foldl_preserve {α β : Type} (P : α → Prop) (f : α → β → α) (l : List β) (a : α)
    (h0 : P a) (hstep : ∀ x b, b ∈ l → P x → P (f x b)) : P (l.foldl f a) := by
  induction l generalizing a with
  | nil => exact h0
  | cons b t ih =>
      exact ih (f a b) (hstep a b (List.mem_cons_self b t) h0)
        (fun x b' hb' => hstep x b' (List.mem_cons_of_mem b hb'))

theorem foldl_congrFun {α β : Type} {f g : α → β → α} (l : List β) (a : α)
    (h : ∀ x b, b ∈ l → f x b = g x b) : l.foldl f a = l.foldl g a := by
  induction l generalizing a with
  | nil => rfl
  | cons b t ih =>
      rw [List.foldl_cons, List.foldl_cons, h a b (List.mem_cons_self b t)]
      exact ih _ (fun x b' hb' => h x b' (List.mem_cons_of_mem b hb'))

theorem all_map_comp {α β : Type} (l : List α) (f : α → β) (p : β → Bool) :
    (l.map f).all p = l.all (fun x => p (f x)) := by
  induction l with
  | nil => rfl
  | cons a t ih => simp [List.all_cons, ih]

/-! Basic facts about the probability-map cells. -/

theorem pmIncr_length (pm : ProbMap) (r c : Nat) : (pmIncr pm r c).length = pm.length :=
  List.length_set pm _ _

theorem pmGet_pmIncr_of_ne (pm : ProbMap) (a b r c : Nat)
    (h : a * BOARD_SIZE + b ≠ r * BOARD_SIZE + c) :
    pmGet (pmIncr pm a b) r c = pmGet pm r c :=
  getD_set_of_ne pm _ _ _ _ h

theorem pmGet_le_pmIncr (pm : ProbMap) (a b r c : Nat) :
    pmGet pm r c ≤ pmGet (pmIncr pm a b) r c := by
  by_cases h : a * BOARD_SIZE + b = r * BOARD_SIZE + c
  · by_cases hlen : r * BOARD_SIZE + c < pm.length
    · unfold pmGet pmIncr
      rw [h, getD_set_self pm _ _ _ hlen]
      exact Nat.le_succ _
    · unfold pmGet pmIncr
      rw [h, List.set_eq_of_length_le (Nat.le_of_not_lt hlen)]
  · rw [pmGet_pmIncr_of_ne pm a b r c h]

theorem pmGet_pmInit (ag : Grid) (r c : Nat) (hr : r < BOARD_SIZE) (hc : c < BOARD_SIZE) :
    pmGet (pmInit ag) r c = if attacked (gridGet ag r c) then 0 else 1 := by
  have hB : BOARD_SIZE = 8 := rfl
  rw [hB] at hr hc
  have hidx : r * BOARD_SIZE + c < BOARD_SIZE * BOARD_SIZE := by rw [hB]; omega
  have hdiv : (r * BOARD_SIZE + c) / BOARD_SIZE = r := by rw [hB]; omega
  have hmod : (r * BOARD_SIZE + c) % BOARD_SIZE = c := by rw [hB]; omega
  unfold pmGet pmInit
  rw [List.getD_eq_getElem?_getD, List.getElem?_map, List.getElem?_range hidx]
  simp [hdiv, hmod]

theorem pmInit_length (ag : Grid) : (pmInit ag).length = BOARD_SIZE * BOARD_SIZE := by
  simp [pmInit]

/-! Lemmas about check_sunk_ship. -/

theorem erase_ne_nil_of_mem_of_ne (ps : List Coord) (rc : Coord) (hm : rc ∈ ps)
    (hne : ps ≠ [rc]) : ps.erase rc ≠ [] := by
  intro hnil
  have hlen := List.length_erase_of_mem hm
  rw [hnil] at hlen
  have hpos : 0 < ps.length := List.length_pos.mpr (List.ne_nil_of_mem hm)
  have hone : ps.length = 1 := by
    simp only [List.length_nil] at hlen
    omega
  obtain ⟨a, ha⟩ := List.length_eq_one.mp hone
  subst ha
  have : rc = a := by simpa using hm
  exact hne (by rw [this])

theorem sunkEntryIdx_cons (e : String × List Coord) (t : Fleet) (rc : Coord) :
    sunkEntryIdx (e :: t) rc =
      if e.2 == [rc] then some 0 else (sunkEntryIdx t rc).map (fun i => i + 1) := rfl

theorem registerHitResult_cons_sunk (ship : String) (t : Fleet) (rc : Coord) :
    registerHitResult ((ship, [rc]) :: t) rc = t := by
  unfold registerHitResult
  rw [sunkEntryIdx_cons]
  simp [removeHitAll]

theorem registerHitResult_cons (ship : String) (ps : List Coord) (t : Fleet) (rc : Coord)
    (h : ps ≠ [rc]) :
    registerHitResult ((ship, ps) :: t) rc =
      (ship, ps.erase rc) :: registerHitResult t rc := by
  unfold registerHitResult
  rw [sunkEntryIdx_cons]
  have hb : ((ship, ps).2 == [rc]) = false := by
    simpa using h
  rw [hb]
  simp only [Bool.false_eq_true, if_false]
  cases hfi : sunkEntryIdx t rc with
  | none => simp [removeHitAll]
  | some i => simp [removeHitAll, List.take_succ_cons, List.drop_succ_cons]

theorem check_sunk_eq_registerHit (locs : Fleet) (rc : Coord) :
    check_sunk_ship locs rc = registerHitResult locs rc := by
  induction locs with
  | nil => rfl
  | cons e t ih =>
      obtain ⟨ship, ps⟩ := e
      by_cases hmem : rc ∈ ps
      · by_cases hsingle : ps = [rc]
        · subst hsingle
          rw [registerHitResult_cons_sunk]
          unfold check_sunk_ship
          rw [if_pos hmem]
          simp [List.erase_cons_head]
        · rw [registerHitResult_cons ship ps t rc hsingle]
          unfold check_sunk_ship
          rw [if_pos hmem]
          have hne := erase_ne_nil_of_mem_of_ne ps rc hmem hsingle
          have hemp : (ps.erase rc).isEmpty = false := by
            cases hps : ps.erase rc with
            | nil => exact absurd hps hne
            | cons a l => rfl
          simp only [hemp, Bool.false_eq_true, if_false]
          rw [ih]
      · have hsingle : ps ≠ [rc] := by
          intro hcon
          rw [hcon] at hmem
          exact hmem (List.mem_singleton_self rc)
        rw [registerHitResult_cons ship ps t rc hsingle]
        unfold check_sunk_ship
        rw [if_neg hmem, List.erase_of_not_mem hmem, ih]

/-- C10: the claim's description fails (the scan is not stopped by a
removal that leaves the ship nonempty), and this theorem proves the
amended position-by-position characterization, whose second part keeps the
claim's untouched-when-absent guarantee. -/
theorem C10_amended (locs : Fleet) (rc : Coord) :
    check_sunk_ship locs rc = registerHitResult locs rc ∧
    ((∀ e ∈ locs, rc ∉ e.2) → check_sunk_ship locs rc = locs) := by
  refine ⟨check_sunk_eq_registerHit locs rc, fun h => ?_⟩
  induction locs with
  | nil => rfl
  | cons e t ih =>
      obtain ⟨ship, ps⟩ := e
      have hmem : rc ∉ ps := h (ship, ps) (List.mem_cons_self _ t)
      unfold check_sunk_ship
      rw [if_neg hmem]
      rw [ih (fun e he => h e (List.mem_cons_of_mem _ he))]

/-- C10 (counterexample): with the coordinate present in two ships and not
emptying the first, check_sunk_ship removes it from the second ship as
well and deletes that ship, contradicting the claim that exactly one ship
(the first match) changes and every other entry is unchanged. -/
theorem C10_counterexample :
    check_sunk_ship [("A", [(0, 0), (1, 1)]), ("B", [(0, 0)])] (0, 0) = [("A", [(1, 1)])] ∧
    flookup (check_sunk_ship [("A", [(0, 0), (1, 1)]), ("B", [(0, 0)])] (0, 0)) "B" ≠
      flookup [("A", [(0, 0), (1, 1)]), ("B", [(0, 0)])] "B" := by
  decide

/-- C10 (witness): the amended theorem applied to a concrete fleet and a
coordinate belonging to no ship. -/
theorem C10_witness : check_sunk_ship [("A", [(5, 5)])] (9, 9) = [("A", [(5, 5)])] :=
  (C10_amended [("A", [(5, 5)])] (9, 9)).2 (by decide)

/-- C5 (counterexample): a fleet state with one ship mapped to the empty
coordinate list makes all_ships_sunk true while the mapping is nonempty,
so the claimed equivalence does not hold for every ShipManager state. -/
theorem C5_counterexample :
    all_ships_sunk [("A", [])] = true ∧ ([("A", [])] : Fleet) ≠ [] := by
  decide

/-- C5 (amended): on fleet states whose entries all carry a nonempty
coordinate list — the only fleet states deploy_ship (with positive length)
and check_sunk_ship ever produce — all_ships_sunk is true exactly when the
ship_locations mapping is empty. -/
theorem C5_amended (locs : Fleet) (h : ∀ e ∈ locs, e.2 ≠ []) :
    all_ships_sunk locs = true ↔ locs = [] := by
  cases locs with
  | nil => simp [all_ships_sunk]
  | cons e t =>
      simp only [all_ships_sunk, List.all_cons, Bool.and_eq_true, List.isEmpty_iff]
      constructor
      · rintro ⟨he, -⟩
        exact absurd he (h e (List.mem_cons_self e t))
      · intro hcon
        exact absurd hcon (List.cons_ne_nil e t)

/-- C5 (witness): the amended equivalence at a concrete one-ship fleet. -/
theorem C5_witness :
    all_ships_sunk [("A", [(0, 0)])] = true ↔ ([("A", [(0, 0)])] : Fleet) = [] :=
  C5_amended [("A", [(0, 0)])] (by decide)

/-! Lemmas about check_overlap and Python indexing. -/

theorem pyGet_eq_none_iff {α : Type} (l : List α) (i : Int) :
    pyGet l i = none ↔ i < -(l.length : Int) ∨ (l.length : Int) ≤ i := by
  unfold pyGet
  split
  case isTrue h0 =>
    rw [List.get?_eq_none]
    omega
  case isFalse h0 =>
    split
    case isTrue h1 =>
      rw [List.get?_eq_none]
      omega
    case isFalse h1 =>
      simp only [true_iff]
      omega

theorem pyGet_mem {α : Type} (l : List α) (i : Int) (x : α) (h : pyGet l i = some x) :
    x ∈ l := by
  unfold pyGet at h
  split at h
  · exact List.get?_mem h
  · split at h
    · exact List.get?_mem h
    · exact absurd h (by simp)

theorem cellRead_eq_none (g : Grid) (p : Int × Int)
    (hg : g.length = BOARD_SIZE) (hrows : ∀ r ∈ g, r.length = BOARD_SIZE)
    (h : p.1 < -(BOARD_SIZE : Int) ∨ (BOARD_SIZE : Int) ≤ p.1 ∨
         p.2 < -(BOARD_SIZE : Int) ∨ (BOARD_SIZE : Int) ≤ p.2) :
    cellRead g p = none := by
  unfold cellRead
  cases hrow : pyGet g p.1 with
  | none => rfl
  | some rowL =>
      have hrIn : ¬(p.1 < -(g.length : Int) ∨ (g.length : Int) ≤ p.1) := by
        intro hcon
        rw [(pyGet_eq_none_iff g p.1).mpr hcon] at hrow
        exact Option.noConfusion hrow
      rw [hg] at hrIn
      have hrowlen : rowL.length = BOARD_SIZE :=
        hrows rowL (pyGet_mem g p.1 rowL hrow)
      apply (pyGet_eq_none_iff rowL p.2).mpr
      rw [hrowlen]
      tauto

theorem overlapScan_true_of_err (g : Grid) (cells : List (Int × Int))
    (h : ∃ p ∈ cells, cellRead g p = none) : overlapScan g cells = true := by
  induction cells with
  | nil =>
      obtain ⟨p, hp, -⟩ := h
      exact absurd hp (List.not_mem_nil p)
  | cons q t ih =>
      unfold overlapScan
      cases hq : cellRead g q with
      | none => rfl
      | some ch =>
          by_cases hx : ch == 'X'
          · simp [hx]
          · simp only [hx, Bool.false_eq_true, if_false]
            apply ih
            obtain ⟨p, hp, hpe⟩ := h
            cases List.mem_cons.mp hp with
            | inl heq =>
                rw [heq, hq] at hpe
                exact absurd hpe (by simp)
            | inr ht => exact ⟨p, ht, hpe⟩

/-- C4 (counterexample): a vertical run starting at row -1 on the empty
8 by 8 grid extends outside [0, N) on the row axis, yet check_overlap
returns false — Python's negative indexing wraps the access to the last
row instead of failing. -/
theorem C4_counterexample :
    (∃ p ∈ runCells (-1) 0 'V' 1,
        p.1 < 0 ∨ (BOARD_SIZE : Int) ≤ p.1 ∨ p.2 < 0 ∨ (BOARD_SIZE : Int) ≤ p.2) ∧
    check_overlap blankGrid (-1) 0 'V' 1 = false := by
  decide

/-- C4 (amended): on a well-formed N by N grid, check_overlap returns true
(and, being total, raises nothing) for every placement whose run leaves
the Python-indexable band [-N, N) on either axis; origins with indices in
[-N, -1] wrap to the far side of the board and are checked there, so such
runs can be accepted. -/
theorem C4_amended (g : Grid) (row column : Int) (o : Char) (L : Nat)
    (hg : g.length = BOARD_SIZE) (hrows : ∀ r ∈ g, r.length = BOARD_SIZE)
    (h : ∃ p ∈ runCells row column o L,
        p.1 < -(BOARD_SIZE : Int) ∨ (BOARD_SIZE : Int) ≤ p.1 ∨
        p.2 < -(BOARD_SIZE : Int) ∨ (BOARD_SIZE : Int) ≤ p.2) :
    check_overlap g row column o L = true := by
  obtain ⟨p, hp, hout⟩ := h
  exact overlapScan_true_of_err g _ ⟨p, hp, cellRead_eq_none g p hg hrows hout⟩

/-- C4 (witness): the amended theorem at a run that walks off the bottom
edge of the empty board. -/
theorem C4_witness : check_overlap blankGrid 7 0 'V' 2 = true :=
  C4_amended blankGrid 7 0 'V' 2 (by decide) (by decide) (by decide)

/-! Lemmas about the selection phase and the hit update of take_turn. -/

theorem hitUpdate_last_hit (s : CompState) (rc : Coord) :
    (hitUpdate s rc).last_hit = some rc := by
  unfold hitUpdate
  cases s.last_hit with
  | none => rfl
  | some p =>
      obtain ⟨lr, lc⟩ := p
      rfl

/-- C6 (counterexample): in a state whose hit_stack is empty but last_hit
is set, with both directional candidates unavailable, the probability map
is recomputed and used for the selection — refuting the claim that this
happens only when last_hit is unset. -/
theorem C6_counterexample :
    (selectMove [("Destroyer", 2)] [] 0 c6State).2.2 = Mode.prob ∧
    c6State.hit_stack = [] ∧ c6State.last_hit = some (0, 0) := by
  refine ⟨?_, rfl, rfl⟩
  decide

/-- C6 (amended): the dispatch priority of take_turn.  A non-empty
hit_stack yields its front entry (FIFO) with the rest kept in order;
hunt-mode selection happens only with an empty stack and a set last_hit;
and the probability map drives the selection only when the stack is empty
and last_hit is unset at the start of the turn, or when the
directional/adjacent candidates are exhausted, in which case the hunt
state is cleared before the map is used. -/
theorem C6_amended (st : List (String × Nat)) (opp : Fleet) (pick : Nat) (s : CompState) :
    (∀ m rest, s.hit_stack = m :: rest →
        selectMove st opp pick s = (m, { s with hit_stack := rest }, Mode.stack)) ∧
    ((selectMove st opp pick s).2.2 = Mode.hunt → s.hit_stack = [] ∧ s.last_hit ≠ none) ∧
    ((selectMove st opp pick s).2.2 = Mode.prob → s.hit_stack = [] ∧
        (selectMove st opp pick s).2.1.last_hit = none) := by
  refine ⟨?_, ?_, ?_⟩
  · intro m rest hst
    simp [selectMove, hst]
  · cases hst : s.hit_stack with
    | cons m rest => simp [selectMove, hst]
    | nil =>
        cases hlh : s.last_hit with
        | none => simp [selectMove, hst, hlh]
        | some p =>
            intro _
            exact ⟨rfl, fun hcon => Option.noConfusion hcon⟩
  · cases hst : s.hit_stack with
    | cons m rest => simp [selectMove, hst]
    | nil =>
        cases hlh : s.last_hit with
        | none =>
            intro _
            exact ⟨rfl, by simp [selectMove, hst, hlh]⟩
        | some p =>
            obtain ⟨r, c⟩ := p
            cases hv : huntCandidates s r c with
            | cons v vs => simp [selectMove, hst, hlh, hv]
            | nil =>
                intro _
                exact ⟨rfl, by simp [selectMove, hst, hlh, hv]⟩

/-- C6 (witness): the amended dispatch facts at a concrete mid-hunt state
with a queued target. -/
theorem C6_witness :
    (selectMove [("Destroyer", 2)] [] 0
        { last_hit := some (0, 0), hit_stack := [(0, 1)], direction := none,
          attack_grid := c1AttackGrid } =
      ((0, 1),
        { last_hit := some (0, 0), hit_stack := [], direction := none,
          attack_grid := c1AttackGrid }, Mode.stack)) :=
  (C6_amended [("Destroyer", 2)] [] 0
      { last_hit := some (0, 0), hit_stack := [(0, 1)], direction := none,
        attack_grid := c1AttackGrid }).1 (0, 1) [] rfl

/-- C1 (counterexample): the computer attacks (0,1), the single remaining
coordinate of the Destroyer, sinking it (the fleet becomes empty) — yet
after the turn last_hit is (0,1), direction is 'H' and the hit_stack holds
(0,2): the hunt state is not reset. -/
theorem C1_counterexample :
    (take_turn [("Destroyer", 2)] 1 c1State c1OppGrid c1Fleet).1 = (0, 1) ∧
    c1Fleet = [("Destroyer", [(0, 1)])] ∧
    (take_turn [("Destroyer", 2)] 1 c1State c1OppGrid c1Fleet).2.2 = [] ∧
    (take_turn [("Destroyer", 2)] 1 c1State c1OppGrid c1Fleet).2.1.last_hit = some (0, 1) ∧
    (take_turn [("Destroyer", 2)] 1 c1State c1OppGrid c1Fleet).2.1.direction = some 'H' ∧
    (take_turn [("Destroyer", 2)] 1 c1State c1OppGrid c1Fleet).2.1.hit_stack = [(0, 2)] := by
  decide

/-- C1 (amended): a sinking hit is handled exactly like any other hit: the
hunt state is never reset by a sink; after every turn whose attacked
coordinate lands on a ship cell, last_hit equals that coordinate (so in
particular it is not none after a ship is sunk).  The only reset point is
the exhaustion of hunt candidates during selection. -/
theorem C1_amended (st : List (String × Nat)) (pick : Nat) (s : CompState) (og : Grid)
    (locs : Fleet) (rc : Coord) (s' : CompState) (locs' : Fleet)
    (h : take_turn st pick s og locs = (rc, s', locs'))
    (hhit : gridGet og rc.1 rc.2 = 'X') : s'.last_hit = some rc := by
  simp only [take_turn] at h
  split at h
  case isTrue hc =>
    have h2 : s' = hitUpdate (selectMove st locs pick s).2.1 (selectMove st locs pick s).1 :=
      (congrArg (fun t => t.2.1) h).symm
    have h1 : (selectMove st locs pick s).1 = rc := congrArg (fun t => t.1) h
    rw [h2, hitUpdate_last_hit, h1]
  case isFalse hc =>
    have h1 : (selectMove st locs pick s).1 = rc := congrArg (fun t => t.1) h
    rw [h1] at hc
    rw [hhit] at hc
    exact absurd rfl hc

set_option maxRecDepth 100000 in
/-- C2: a reachable six-turn computer trace (fresh computer state, fleet
deployed through deploy_ship, every turn taken by take_turn) in which the
sixth selection pops the stale hit-stack entry (2,4), a cell the computer
already attacked and marked Miss on turn 4: queued candidates are filtered
when they are inserted but not re-validated when they are popped, and turn
3 re-queued (2,4) while it was still pending.  The last conjunct checks
the game is not over, so a seventh turn actually happens. -/
theorem C2_stale_queue_trace :
    c2T1.1 = (2, 2) ∧ c2T2.1 = (2, 3) ∧ c2T3.1 = (2, 1) ∧
    c2T4.1 = (2, 4) ∧ c2T5.1 = (2, 0) ∧
    c2T3.2.1.hit_stack = [(2, 4), (2, 0), (2, 4)] ∧
    (selectMove c2ShipTypes c2T5.2.2 0 c2T5.2.1).1 = (2, 4) ∧
    attacked (gridGet c2T5.2.1.attack_grid 2 4) = true ∧
    all_ships_sunk c2T5.2.2 = false := by
  decide

/-- C1 (witness): the amended statement at the concrete sinking turn of
the counterexample scenario. -/
theorem C1_witness :
    (take_turn [("Destroyer", 2)] 1 c1State c1OppGrid c1Fleet).2.1.last_hit = some (0, 1) :=
  C1_amended [("Destroyer", 2)] 1 c1State c1OppGrid c1Fleet (0, 1)
    (take_turn [("Destroyer", 2)] 1 c1State c1OppGrid c1Fleet).2.1
    (take_turn [("Destroyer", 2)] 1 c1State c1OppGrid c1Fleet).2.2
    (by decide) (by decide)

/-! Lemmas about np_argmax and the probability-map selection. -/

theorem np_argmax_lt_length (l : List Nat) (h : l ≠ []) : np_argmax l < l.length := by
  induction l with
  | nil => exact absurd rfl h
  | cons v rest ih =>
      unfold np_argmax
      split
      case isTrue _ => simp
      case isFalse hcond =>
        have hrest : rest ≠ [] := by
          intro hr
          rw [hr] at hcond
          exact hcond (Nat.zero_le v)
        simp only [List.length_cons]
        exact Nat.succ_lt_succ (ih hrest)

theorem getD_le_argmax (l : List Nat) (j : Nat) (hj : j < l.length) :
    l.getD j 0 ≤ l.getD (np_argmax l) 0 := by
  induction l generalizing j with
  | nil => simp at hj
  | cons v rest ih =>
      unfold np_argmax
      split
      case isTrue hcond =>
        cases j with
        | zero => simp
        | succ j' =>
            have hj' : j' < rest.length := by simpa using hj
            calc (v :: rest).getD (j' + 1) 0 = rest.getD j' 0 := by simp
            _ ≤ rest.getD (np_argmax rest) 0 := ih j' hj'
            _ ≤ v := hcond
            _ = (v :: rest).getD 0 0 := by simp
      case isFalse hcond =>
        cases j with
        | zero =>
            simp only [List.getD_cons_zero, List.getD_cons_succ]
            exact Nat.le_of_lt (Nat.lt_of_not_le hcond)
        | succ j' =>
            have hj' : j' < rest.length := by simpa using hj
            simpa using ih j' hj'

theorem getD_lt_argmax_of_lt (l : List Nat) (j : Nat) (hj : j < np_argmax l) :
    l.getD j 0 < l.getD (np_argmax l) 0 := by
  induction l generalizing j with
  | nil => simp [np_argmax] at hj
  | cons v rest ih =>
      revert hj
      unfold np_argmax
      split
      case isTrue _ =>
        intro hj
        simp at hj
      case isFalse hcond =>
        intro hj
        cases j with
        | zero =>
            simp only [List.getD_cons_zero, List.getD_cons_succ]
            exact Nat.lt_of_not_le hcond
        | succ j' =>
            have hj' : j' < np_argmax rest := Nat.lt_of_succ_lt_succ hj
            simpa using ih j' hj'

theorem pmAddRunH_length (ag : Grid) (row col L : Nat) (pm : ProbMap) :
    (pmAddRunH ag row col L pm).length = pm.length := by
  unfold pmAddRunH
  apply foldl_preserve (fun x : ProbMap => x.length = pm.length) _ _ _ rfl
  intro x b _ hx
  dsimp only
  split
  · rw [pmIncr_length, hx]
  · exact hx

theorem pmAddRunV_length (ag : Grid) (row col L : Nat) (pm : ProbMap) :
    (pmAddRunV ag row col L pm).length = pm.length := by
  unfold pmAddRunV
  apply foldl_preserve (fun x : ProbMap => x.length = pm.length) _ _ _ rfl
  intro x b _ hx
  dsimp only
  split
  · rw [pmIncr_length, hx]
  · exact hx

theorem pmAddShip_length (opp : Fleet) (ag : Grid) (L : Nat) (pm : ProbMap) :
    (pmAddShip opp ag L pm).length = pm.length := by
  unfold pmAddShip
  apply foldl_preserve (fun x : ProbMap => x.length = pm.length) _ _ _ rfl
  intro x row _ hx
  apply foldl_preserve (fun y : ProbMap => y.length = pm.length) _ _ _ hx
  intro y col _ hy
  dsimp only
  split <;> split <;>
    simp only [pmAddRunV_length, pmAddRunH_length, hy]

theorem update_probability_map_length (st : List (String × Nat)) (opp : Fleet) (ag : Grid) :
    (update_probability_map st opp ag).length = BOARD_SIZE * BOARD_SIZE := by
  unfold update_probability_map
  apply foldl_preserve (fun x : ProbMap => x.length = BOARD_SIZE * BOARD_SIZE) _ _ _
    (pmInit_length ag)
  intro x b _ hx
  rw [pmAddShip_length]
  exact hx

/-! Equation lemmas for the four branches of selectMove. -/

theorem selectMove_stack (st : List (String × Nat)) (opp : Fleet) (pick : Nat)
    (s : CompState) (m : Coord) (rest : List Coord) (hst : s.hit_stack = m :: rest) :
    selectMove st opp pick s = (m, { s with hit_stack := rest }, Mode.stack) := by
  unfold selectMove
  rw [hst]

theorem selectMove_prob_idle (st : List (String × Nat)) (opp : Fleet) (pick : Nat)
    (s : CompState) (hst : s.hit_stack = []) (hlh : s.last_hit = none) :
    selectMove st opp pick s =
      (select_from_map (update_probability_map st opp s.attack_grid), s, Mode.prob) := by
  unfold selectMove
  simp only [hst, hlh]

theorem selectMove_hunt_branch (st : List (String × Nat)) (opp : Fleet) (pick : Nat)
    (s : CompState) (r c : Nat) (v : Coord) (vs : List Coord)
    (hst : s.hit_stack = []) (hlh : s.last_hit = some (r, c))
    (hv : huntCandidates s r c = v :: vs) :
    selectMove st opp pick s =
      ((v :: vs).getD (pick % (v :: vs).length) v, s, Mode.hunt) := by
  unfold selectMove
  simp only [hst, hlh]
  rw [hv]

theorem selectMove_prob_fallback (st : List (String × Nat)) (opp : Fleet) (pick : Nat)
    (s : CompState) (r c : Nat)
    (hst : s.hit_stack = []) (hlh : s.last_hit = some (r, c))
    (hv : huntCandidates s r c = []) :
    selectMove st opp pick s =
      (select_from_map (update_probability_map st opp s.attack_grid),
       { s with last_hit := none, direction := none, hit_stack := [] }, Mode.prob) := by
  unfold selectMove
  simp only [hst, hlh]
  rw [hv]

theorem select_from_map_spec (pm : ProbMap) (hlen : pm.length = BOARD_SIZE * BOARD_SIZE) :
    (select_from_map pm).1 < BOARD_SIZE ∧ (select_from_map pm).2 < BOARD_SIZE ∧
    (∀ r c, r < BOARD_SIZE → c < BOARD_SIZE →
        pmGet pm r c ≤ pmGet pm (select_from_map pm).1 (select_from_map pm).2) ∧
    (∀ r c, r < BOARD_SIZE → c < BOARD_SIZE →
        r * BOARD_SIZE + c < (select_from_map pm).1 * BOARD_SIZE + (select_from_map pm).2 →
        pmGet pm r c < pmGet pm (select_from_map pm).1 (select_from_map pm).2) := by
  have hB : BOARD_SIZE = 8 := rfl
  have hne : pm ≠ [] := by
    intro hc
    rw [hc] at hlen
    rw [hB] at hlen
    simp at hlen
  have hidx : np_argmax pm < BOARD_SIZE * BOARD_SIZE := by
    rw [← hlen]
    exact np_argmax_lt_length pm hne
  have hsel : select_from_map pm = (np_argmax pm / BOARD_SIZE, np_argmax pm % BOARD_SIZE) := rfl
  have hback : (np_argmax pm / BOARD_SIZE) * BOARD_SIZE + np_argmax pm % BOARD_SIZE =
      np_argmax pm := by
    rw [hB] at *
    omega
  have hgetsel : pmGet pm (select_from_map pm).1 (select_from_map pm).2 =
      pm.getD (np_argmax pm) 0 := by
    rw [hsel]
    unfold pmGet
    rw [hback]
  refine ⟨?_, ?_, ?_, ?_⟩
  · rw [hsel]
    rw [hB] at *
    omega
  · rw [hsel]
    rw [hB] at *
    omega
  · intro r c hr hc
    rw [hgetsel]
    apply getD_le_argmax
    rw [hlen]
    rw [hB] at *
    omega
  · intro r c hr hc hlt
    rw [hgetsel]
    have : r * BOARD_SIZE + c < np_argmax pm := by
      rw [hsel] at hlt
      dsimp at hlt
      rw [hback] at hlt
      exact hlt
    exact getD_lt_argmax_of_lt pm _ this

/-- C7: when the probability map drives the selection, the chosen cell is
in bounds, its weight equals the maximum weight of the recomputed map, and
among all cells attaining that maximum it is the first in row-major scan
order (every strictly earlier cell has a strictly smaller weight). -/
theorem C7_prob_argmax (st : List (String × Nat)) (opp : Fleet) (pick : Nat)
    (s : CompState) (rc : Coord) (s' : CompState)
    (h : selectMove st opp pick s = (rc, s', Mode.prob)) :
    rc.1 < BOARD_SIZE ∧ rc.2 < BOARD_SIZE ∧
    (∀ r c, r < BOARD_SIZE → c < BOARD_SIZE →
        pmGet (update_probability_map st opp s'.attack_grid) r c ≤
          pmGet (update_probability_map st opp s'.attack_grid) rc.1 rc.2) ∧
    (∀ r c, r < BOARD_SIZE → c < BOARD_SIZE →
        r * BOARD_SIZE + c < rc.1 * BOARD_SIZE + rc.2 →
        pmGet (update_probability_map st opp s'.attack_grid) r c <
          pmGet (update_probability_map st opp s'.attack_grid) rc.1 rc.2) := by
  have key : rc = select_from_map (update_probability_map st opp s'.attack_grid) := by
    cases hst : s.hit_stack with
    | cons m rest =>
        rw [selectMove_stack st opp pick s m rest hst] at h
        exact absurd (congrArg (fun t => t.2.2) h) (by simp)
    | nil =>
        cases hlh : s.last_hit with
        | none =>
            rw [selectMove_prob_idle st opp pick s hst hlh] at h
            have h1 := congrArg (fun t => t.1) h
            have h2 := congrArg (fun t => t.2.1) h
            dsimp only at h1 h2
            rw [← h1, ← h2]
        | some p =>
            obtain ⟨r, c⟩ := p
            cases hv : huntCandidates s r c with
            | cons v vs =>
                rw [selectMove_hunt_branch st opp pick s r c v vs hst hlh hv] at h
                exact absurd (congrArg (fun t => t.2.2) h) (by simp)
            | nil =>
                rw [selectMove_prob_fallback st opp pick s r c hst hlh hv] at h
                have h1 := congrArg (fun t => t.1) h
                have h2 := congrArg (fun t => t.2.1) h
                dsimp only at h1 h2
                rw [← h1, ← h2]
  rw [key]
  exact select_from_map_spec _ (update_probability_map_length st opp s'.attack_grid)

set_option maxRecDepth 100000 in
/-- C7 (witness): the first probability-mode turn of a fresh game against
a lone Destroyer selects (1,1), the first row-major cell of maximum
weight. -/
theorem C7_witness :
    ((1, 1) : Coord).1 < BOARD_SIZE ∧ ((1, 1) : Coord).2 < BOARD_SIZE ∧
    (∀ r c, r < BOARD_SIZE → c < BOARD_SIZE →
        pmGet (update_probability_map [("Destroyer", 2)] [] initCompState.attack_grid) r c ≤
          pmGet (update_probability_map [("Destroyer", 2)] [] initCompState.attack_grid) 1 1) ∧
    (∀ r c, r < BOARD_SIZE → c < BOARD_SIZE → r * BOARD_SIZE + c < 1 * BOARD_SIZE + 1 →
        pmGet (update_probability_map [("Destroyer", 2)] [] initCompState.attack_grid) r c <
          pmGet (update_probability_map [("Destroyer", 2)] [] initCompState.attack_grid) 1 1) :=
  C7_prob_argmax [("Destroyer", 2)] [] 0 initCompState (1, 1) initCompState (by decide)

/-! Lemmas for C8: attacked cells are never incremented, weights only
grow during accumulation. -/

theorem can_place_H_le (opp : Fleet) (ag : Grid) (row col L : Nat)
    (h : can_place_ship opp ag row col L 'H' = true) : col + L ≤ BOARD_SIZE := by
  by_contra hcon
  have hlt : BOARD_SIZE < col + L := Nat.lt_of_not_le hcon
  simp [can_place_ship, hlt] at h

theorem can_place_V_le (opp : Fleet) (ag : Grid) (row col L : Nat)
    (h : can_place_ship opp ag row col L 'V' = true) : row + L ≤ BOARD_SIZE := by
  by_contra hcon
  have hlt : BOARD_SIZE < row + L := Nat.lt_of_not_le hcon
  simp [can_place_ship, hlt] at h

theorem pmGet_pmAddRunH_attacked (ag : Grid) (row col L : Nat) (pm : ProbMap) (r c : Nat)
    (hrc : attacked (gridGet ag r c) = true) (hrow : row < BOARD_SIZE)
    (hcl : col + L ≤ BOARD_SIZE) (hr : r < BOARD_SIZE) (hc : c < BOARD_SIZE)
    (h : pmGet pm r c = 0) : pmGet (pmAddRunH ag row col L pm) r c = 0 := by
  unfold pmAddRunH
  apply foldl_preserve (fun x : ProbMap => pmGet x r c = 0) _ _ _ h
  intro x i hi hx
  dsimp only
  split
  case isTrue hguard =>
    have hiL : i < L := List.mem_range.mp hi
    have hne : row * BOARD_SIZE + (col + i) ≠ r * BOARD_SIZE + c := by
      intro he
      have hB : BOARD_SIZE = 8 := rfl
      rw [hB] at he hrow hcl hr hc
      have heq : row = r ∧ col + i = c := by omega
      rw [heq.1, heq.2] at hguard
      rw [hrc] at hguard
      simp at hguard
    rw [pmGet_pmIncr_of_ne _ _ _ _ _ hne]
    exact hx
  case isFalse => exact hx

theorem pmGet_pmAddRunV_attacked (ag : Grid) (row col L : Nat) (pm : ProbMap) (r c : Nat)
    (hrc : attacked (gridGet ag r c) = true) (hcol : col < BOARD_SIZE)
    (hrl : row + L ≤ BOARD_SIZE) (hr : r < BOARD_SIZE) (hc : c < BOARD_SIZE)
    (h : pmGet pm r c = 0) : pmGet (pmAddRunV ag row col L pm) r c = 0 := by
  unfold pmAddRunV
  apply foldl_preserve (fun x : ProbMap => pmGet x r c = 0) _ _ _ h
  intro x i hi hx
  dsimp only
  split
  case isTrue hguard =>
    have hiL : i < L := List.mem_range.mp hi
    have hne : (row + i) * BOARD_SIZE + col ≠ r * BOARD_SIZE + c := by
      intro he
      have hB : BOARD_SIZE = 8 := rfl
      rw [hB] at he hcol hrl hr hc
      have heq : row + i = r ∧ col = c := by omega
      rw [heq.1, heq.2] at hguard
      rw [hrc] at hguard
      simp at hguard
    rw [pmGet_pmIncr_of_ne _ _ _ _ _ hne]
    exact hx
  case isFalse => exact hx

theorem pmGet_pmAddShip_attacked (opp : Fleet) (ag : Grid) (L : Nat) (pm : ProbMap)
    (r c : Nat) (hrc : attacked (gridGet ag r c) = true)
    (hr : r < BOARD_SIZE) (hc : c < BOARD_SIZE)
    (h : pmGet pm r c = 0) : pmGet (pmAddShip opp ag L pm) r c = 0 := by
  unfold pmAddShip
  apply foldl_preserve (fun x : ProbMap => pmGet x r c = 0) _ _ _ h
  intro x row hrowmem hx
  apply foldl_preserve (fun y : ProbMap => pmGet y r c = 0) _ _ _ hx
  intro y col hcolmem hy
  have hrow : row < BOARD_SIZE := List.mem_range.mp hrowmem
  have hcol : col < BOARD_SIZE := List.mem_range.mp hcolmem
  dsimp only
  split
  case isTrue hV =>
    apply pmGet_pmAddRunV_attacked ag row col L _ r c hrc hcol
      (can_place_V_le opp ag row col L hV) hr hc
    split
    case isTrue hH =>
      exact pmGet_pmAddRunH_attacked ag row col L y r c hrc hrow
        (can_place_H_le opp ag row col L hH) hr hc hy
    case isFalse => exact hy
  case isFalse =>
    split
    case isTrue hH =>
      exact pmGet_pmAddRunH_attacked ag row col L y r c hrc hrow
        (can_place_H_le opp ag row col L hH) hr hc hy
    case isFalse => exact hy

theorem pmGet_update_attacked (st : List (String × Nat)) (opp : Fleet) (ag : Grid)
    (r c : Nat) (hr : r < BOARD_SIZE) (hc : c < BOARD_SIZE)
    (hrc : attacked (gridGet ag r c) = true) :
    pmGet (update_probability_map st opp ag) r c = 0 := by
  unfold update_probability_map
  apply foldl_preserve (fun x : ProbMap => pmGet x r c = 0)
  · rw [pmGet_pmInit ag r c hr hc]
    simp [hrc]
  · intro x b _ hx
    exact pmGet_pmAddShip_attacked opp ag b.2 x r c hrc hr hc hx

theorem pmGet_le_pmAddRunH (ag : Grid) (row col L : Nat) (pm : ProbMap) (r c : Nat) :
    pmGet pm r c ≤ pmGet (pmAddRunH ag row col L pm) r c := by
  unfold pmAddRunH
  apply foldl_preserve (fun x : ProbMap => pmGet pm r c ≤ pmGet x r c) _ _ _ (le_refl _)
  intro x i _ hx
  dsimp only
  split
  · exact le_trans hx (pmGet_le_pmIncr x _ _ r c)
  · exact hx

theorem pmGet_le_pmAddRunV (ag : Grid) (row col L : Nat) (pm : ProbMap) (r c : Nat) :
    pmGet pm r c ≤ pmGet (pmAddRunV ag row col L pm) r c := by
  unfold pmAddRunV
  apply foldl_preserve (fun x : ProbMap => pmGet pm r c ≤ pmGet x r c) _ _ _ (le_refl _)
  intro x i _ hx
  dsimp only
  split
  · exact le_trans hx (pmGet_le_pmIncr x _ _ r c)
  · exact hx

theorem pmGet_le_pmAddShip (opp : Fleet) (ag : Grid) (L : Nat) (pm : ProbMap) (r c : Nat) :
    pmGet pm r c ≤ pmGet (pmAddShip opp ag L pm) r c := by
  unfold pmAddShip
  apply foldl_preserve (fun x : ProbMap => pmGet pm r c ≤ pmGet x r c) _ _ _ (le_refl _)
  intro x row _ hx
  apply foldl_preserve (fun y : ProbMap => pmGet pm r c ≤ pmGet y r c) _ _ _ hx
  intro y col _ hy
  dsimp only
  split
  · split
    · exact le_trans (le_trans hy (pmGet_le_pmAddRunH ag row col L y r c))
        (pmGet_le_pmAddRunV ag row col L _ r c)
    · exact le_trans hy (pmGet_le_pmAddRunV ag row col L y r c)
  · split
    · exact le_trans hy (pmGet_le_pmAddRunH ag row col L y r c)
    · exact hy

theorem pmInit_le_update (st : List (String × Nat)) (opp : Fleet) (ag : Grid) (r c : Nat) :
    pmGet (pmInit ag) r c ≤ pmGet (update_probability_map st opp ag) r c := by
  unfold update_probability_map
  apply foldl_preserve (fun x : ProbMap => pmGet (pmInit ag) r c ≤ pmGet x r c) _ _ _
    (le_refl _)
  intro x b _ hx
  exact le_trans hx (pmGet_le_pmAddShip opp ag b.2 x r c)

/-- C8: after any update_probability_map, every attacked cell of the
computer's attack board has weight exactly 0, and every un-attacked cell
through which at least one remaining ship length fits has weight at least
1. -/
theorem C8_weights (st : List (String × Nat)) (opp : Fleet) (ag : Grid) (r c : Nat)
    (hr : r < BOARD_SIZE) (hc : c < BOARD_SIZE) :
    (attacked (gridGet ag r c) = true →
        pmGet (update_probability_map st opp ag) r c = 0) ∧
    (attacked (gridGet ag r c) = false →
        (∃ L ∈ remaining_lengths st opp, fitsThrough opp ag L r c) →
        1 ≤ pmGet (update_probability_map st opp ag) r c) := by
  constructor
  · intro ha
    exact pmGet_update_attacked st opp ag r c hr hc ha
  · intro ha _
    have h1 : pmGet (pmInit ag) r c = 1 := by
      rw [pmGet_pmInit ag r c hr hc]
      simp [ha]
    calc 1 = pmGet (pmInit ag) r c := h1.symm
    _ ≤ pmGet (update_probability_map st opp ag) r c := pmInit_le_update st opp ag r c

set_option maxRecDepth 100000 in
/-- C8 (witness): on the fresh board against an intact Destroyer, the
un-attacked cell (0,0) is covered by a fitting placement and indeed weighs
at least 1. -/
theorem C8_witness :
    1 ≤ pmGet (update_probability_map [("Destroyer", 2)]
        [("Destroyer", [(4, 4)])] blankGrid) 0 0 :=
  (C8_weights [("Destroyer", 2)] [("Destroyer", [(4, 4)])] blankGrid 0 0
      (by decide) (by decide)).2 (by decide)
    ⟨2, by decide, 0, 0, 'H', by decide, by decide⟩

/-! Lemmas for C9: cellwise behaviour of setCell and appendLoc, and the
frame property of horizontal deployment. -/

theorem setCell_length (g : Grid) (a b : Nat) (v : Cell) :
    (setCell g a b v).length = g.length :=
  List.length_set g _ _

theorem getD_mem (g : Grid) (i : Nat) (h : i < g.length) : g.getD i [] ∈ g := by
  rw [List.getD_eq_getElem?_getD, List.getElem?_eq_getElem h]
  exact List.getElem_mem h

theorem gridGet_setCell_ne (g : Grid) (a b r c : Nat) (v : Cell)
    (h : a ≠ r ∨ b ≠ c) : gridGet (setCell g a b v) r c = gridGet g r c := by
  unfold gridGet setCell
  cases h with
  | inl hne => rw [getD_set_of_ne _ _ _ _ _ hne]
  | inr hne =>
      by_cases har : a = r
      · subst har
        by_cases hlen : a < g.length
        · rw [getD_set_self g a _ [] hlen]
          rw [getD_set_of_ne _ _ _ _ _ hne]
        · rw [List.set_eq_of_length_le (Nat.le_of_not_lt hlen)]
      · rw [getD_set_of_ne _ _ _ _ _ har]

theorem gridGet_setCell_self (g : Grid) (a b : Nat) (v : Cell)
    (ha : a < g.length) (hb : b < (g.getD a []).length) :
    gridGet (setCell g a b v) a b = v := by
  unfold gridGet setCell
  rw [getD_set_self g a _ [] ha]
  rw [getD_set_self _ b v ' ' hb]

theorem setCell_row_length (g : Grid) (a b : Nat) (v : Cell) (i : Nat) :
    ((setCell g a b v).getD i []).length = (g.getD i []).length := by
  unfold setCell
  by_cases h : a = i
  · subst h
    by_cases hlen : a < g.length
    · rw [getD_set_self g a _ [] hlen, List.length_set]
    · rw [List.set_eq_of_length_le (Nat.le_of_not_lt hlen)]
  · rw [getD_set_of_ne _ _ _ _ _ h]

theorem flookup_appendLoc_self (locs : Fleet) (s : String) (rc : Coord) :
    (flookup (appendLoc locs s rc) s).getD [] = (flookup locs s).getD [] ++ [rc] := by
  induction locs with
  | nil => simp [appendLoc, flookup]
  | cons e t ih =>
      by_cases he : (e.1 == s) = true
      · simp [appendLoc, flookup, he]
      · simp only [appendLoc, flookup, he, Bool.false_eq_true, if_false]
        exact ih

theorem flookup_appendLoc_ne (locs : Fleet) (s s' : String) (rc : Coord) (h : s' ≠ s) :
    flookup (appendLoc locs s rc) s' = flookup locs s' := by
  induction locs with
  | nil =>
      have hne : (s == s') = false := by
        simp only [beq_eq_false_iff_ne, ne_eq]
        exact fun hc => h hc.symm
      simp [appendLoc, flookup, hne]
  | cons e t ih =>
      by_cases he : (e.1 == s) = true
      · have he1 : e.1 = s := by simpa using he
        have hne : (e.1 == s') = false := by
          simp only [beq_eq_false_iff_ne, ne_eq, he1]
          exact fun hc => h hc.symm
        simp [appendLoc, flookup, he, hne]
      · simp only [appendLoc, flookup, he, Bool.false_eq_true, if_false]
        by_cases he' : (e.1 == s') = true
        · simp [he']
        · simp only [he', Bool.false_eq_true, if_false]
          exact ih

theorem C9_aux (sm : ShipManager) (ship : String) (row column : Nat) (L : Nat) :
    column + L ≤ (sm.grid.getD row []).length → row < sm.grid.length →
    ((deploy_ship sm ship L row column 'H').grid.length = sm.grid.length ∧
     (∀ i, ((deploy_ship sm ship L row column 'H').grid.getD i []).length =
        (sm.grid.getD i []).length) ∧
     (∀ j, column ≤ j → j < column + L →
        gridGet (deploy_ship sm ship L row column 'H').grid row j = 'X') ∧
     (∀ i j, (i ≠ row ∨ j < column ∨ column + L ≤ j) →
        gridGet (deploy_ship sm ship L row column 'H').grid i j = gridGet sm.grid i j) ∧
     ((flookup (deploy_ship sm ship L row column 'H').ship_locations ship).getD [] =
        (flookup sm.ship_locations ship).getD [] ++
          (List.range L).map (fun k => (row, column + k))) ∧
     (∀ s, s ≠ ship →
        flookup (deploy_ship sm ship L row column 'H').ship_locations s =
          flookup sm.ship_locations s)) := by
  induction L with
  | zero =>
      intro _ _
      have h0 : deploy_ship sm ship 0 row column 'H' = sm := rfl
      rw [h0]
      refine ⟨rfl, fun i => rfl, ?_, fun i j _ => rfl, by simp, fun s _ => rfl⟩
      intro j h1 h2
      omega
  | succ L ih =>
      intro hcol hrow
      obtain ⟨ih1, ih2, ih3, ih4, ih5, ih6⟩ := ih (by omega) hrow
      have hstep : deploy_ship sm ship (L + 1) row column 'H' =
          deployStep ship (deploy_ship sm ship L row column 'H') (row, column + L) := by
        show (List.range (L + 1)).foldl (fun sm i => deployStep ship sm (row, column + i)) sm =
          _
        rw [List.range_succ, List.foldl_append]
        rfl
      rw [hstep]
      unfold deployStep
      dsimp only
      refine ⟨?_, ?_, ?_, ?_, ?_, ?_⟩
      · rw [setCell_length]
        exact ih1
      · intro i
        rw [setCell_row_length]
        exact ih2 i
      · intro j h1 h2
        by_cases hj : j < column + L
        · rw [gridGet_setCell_ne _ _ _ _ _ _ (Or.inr (by omega))]
          exact ih3 j h1 hj
        · have hj' : j = column + L := by omega
          subst hj'
          apply gridGet_setCell_self
          · rw [ih1]
            exact hrow
          · rw [ih2 row]
            omega
      · intro i j hdisj
        have hne : row ≠ i ∨ column + L ≠ j := by
          cases hdisj with
          | inl h => exact Or.inl (Ne.symm h)
          | inr h => cases h with
            | inl h => exact Or.inr (by omega)
            | inr h => exact Or.inr (by omega)
        rw [gridGet_setCell_ne _ _ _ _ _ _ hne]
        apply ih4
        cases hdisj with
        | inl h => exact Or.inl h
        | inr h => cases h with
          | inl h => exact Or.inr (Or.inl h)
          | inr h => exact Or.inr (Or.inr (by omega))
      · rw [flookup_appendLoc_self, ih5, List.range_succ, List.map_append,
          List.append_assoc]
        rfl
      · intro s hs
        rw [flookup_appendLoc_ne _ _ _ _ hs]
        exact ih6 s hs

/-- C9: deploying a ship of length L horizontally at an in-bounds position
(r,c) on a well-formed board sets exactly the cells (r,c)…(r,c+L-1) to
Ship, leaves every other cell unchanged, appends exactly those L
coordinates (in order) to the ship's entry, and leaves every other ship's
entry untouched. -/
theorem C9_deploy_frame (sm : ShipManager) (ship : String) (L row column : Nat)
    (hg : sm.grid.length = BOARD_SIZE) (hrows : ∀ r ∈ sm.grid, r.length = BOARD_SIZE)
    (hr : row < BOARD_SIZE) (hc : column + L ≤ BOARD_SIZE) :
    (∀ j, column ≤ j → j < column + L →
        gridGet (deploy_ship sm ship L row column 'H').grid row j = 'X') ∧
    (∀ i j, (i ≠ row ∨ j < column ∨ column + L ≤ j) →
        gridGet (deploy_ship sm ship L row column 'H').grid i j = gridGet sm.grid i j) ∧
    ((flookup (deploy_ship sm ship L row column 'H').ship_locations ship).getD [] =
        (flookup sm.ship_locations ship).getD [] ++
          (List.range L).map (fun k => (row, column + k))) ∧
    (∀ s, s ≠ ship →
        flookup (deploy_ship sm ship L row column 'H').ship_locations s =
          flookup sm.ship_locations s) := by
  have hrow : row < sm.grid.length := by
    rw [hg]
    exact hr
  have hcol : column + L ≤ (sm.grid.getD row []).length := by
    rw [hrows (sm.grid.getD row []) (getD_mem sm.grid row hrow)]
    exact hc
  obtain ⟨-, -, h3, h4, h5, h6⟩ := C9_aux sm ship row column L hcol hrow
  exact ⟨h3, h4, h5, h6⟩

/-- C9 (witness): a length-2 Destroyer deployed at (0,0) on the fresh
board marks (0,0) and (0,1), keeps (0,2) and (1,0) blank, and records
exactly the two coordinates. -/
theorem C9_witness :
    (∀ j, 0 ≤ j → j < 0 + 2 →
        gridGet (deploy_ship { grid := blankGrid, ship_locations := [] }
          "Destroyer" 2 0 0 'H').grid 0 j = 'X') ∧
    (∀ i j, (i ≠ 0 ∨ j < 0 ∨ 0 + 2 ≤ j) →
        gridGet (deploy_ship { grid := blankGrid, ship_locations := [] }
          "Destroyer" 2 0 0 'H').grid i j =
          gridGet ({ grid := blankGrid, ship_locations := [] } : ShipManager).grid i j) ∧
    ((flookup (deploy_ship { grid := blankGrid, ship_locations := [] }
          "Destroyer" 2 0 0 'H').ship_locations "Destroyer").getD [] =
        (flookup ({ grid := blankGrid, ship_locations := [] } : ShipManager).ship_locations
            "Destroyer").getD [] ++ (List.range 2).map (fun k => (0, 0 + k))) ∧
    (∀ s, s ≠ "Destroyer" →
        flookup (deploy_ship { grid := blankGrid, ship_locations := [] }
            "Destroyer" 2 0 0 'H').ship_locations s =
          flookup ({ grid := blankGrid, ship_locations := [] } : ShipManager).ship_locations s) :=
  C9_deploy_frame { grid := blankGrid, ship_locations := [] } "Destroyer" 2 0 0
    (by decide) (by decide) (by decide) (by decide)

/-! Lemmas for C3: the code's accumulation coincides with the spec-worded
accumulation run over the full SHIP_TYPES length list. -/

theorem specFits_eq_can_place (opp : Fleet) (ag : Grid) (row col L : Nat) (o : Char) :
    specFits ag row col o L = can_place_ship opp ag row col L o := by
  unfold specFits can_place_ship runCoords
  by_cases ho : (o == 'H') = true
  · simp only [ho, if_true]
    by_cases hcl : BOARD_SIZE < col + L
    · rw [if_pos hcl]
      have hd : decide (col + L ≤ BOARD_SIZE) = false := by
        simp only [decide_eq_false_iff_not]
        omega
      rw [hd, Bool.false_and]
    · rw [if_neg hcl]
      have hd : decide (col + L ≤ BOARD_SIZE) = true := by
        simp only [decide_eq_true_eq]
        omega
      rw [hd, Bool.true_and]
      rw [all_map_comp]
  · simp only [ho, Bool.false_eq_true, if_false]
    by_cases hrl : BOARD_SIZE < row + L
    · rw [if_pos hrl]
      have hd : decide (row + L ≤ BOARD_SIZE) = false := by
        simp only [decide_eq_false_iff_not]
        omega
      rw [hd, Bool.false_and]
    · rw [if_neg hrl]
      have hd : decide (row + L ≤ BOARD_SIZE) = true := by
        simp only [decide_eq_true_eq]
        omega
      rw [hd, Bool.true_and]
      rw [all_map_comp]

theorem specIncrRun_H (ag : Grid) (row col L : Nat) (pm : ProbMap) :
    specIncrRun ag (runCoords row col 'H' L) pm = pmAddRunH ag row col L pm := by
  have h1 : runCoords row col 'H' L = (List.range L).map (fun i => (row, col + i)) := rfl
  rw [h1]
  unfold specIncrRun pmAddRunH
  rw [List.foldl_map]

theorem specIncrRun_V (ag : Grid) (row col L : Nat) (pm : ProbMap) :
    specIncrRun ag (runCoords row col 'V' L) pm = pmAddRunV ag row col L pm := by
  have h1 : runCoords row col 'V' L = (List.range L).map (fun i => (row + i, col)) := rfl
  rw [h1]
  unfold specIncrRun pmAddRunV
  rw [List.foldl_map]

theorem specAddLength_eq_pmAddShip (opp : Fleet) (ag : Grid) (L : Nat) (pm : ProbMap) :
    specAddLength ag L pm = pmAddShip opp ag L pm := by
  unfold specAddLength pmAddShip
  apply foldl_congrFun
  intro x row _
  apply foldl_congrFun
  intro y col _
  simp only [List.foldl_cons, List.foldl_nil]
  rw [specFits_eq_can_place opp ag row col L 'H', specFits_eq_can_place opp ag row col L 'V']
  rw [specIncrRun_H, specIncrRun_V]

theorem update_eq_specProbabilityMap (st : List (String × Nat)) (opp : Fleet) (ag : Grid) :
    update_probability_map st opp ag = specProbabilityMap (st.map (fun e => e.2)) ag := by
  unfold update_probability_map specProbabilityMap
  rw [List.foldl_map]
  apply foldl_congrFun
  intro x e _
  exact (specAddLength_eq_pmAddShip opp ag e.2 x).symm

set_option maxRecDepth 100000 in
/-- C3 (counterexample): with the Destroyer already sunk (the opponent's
fleet mapping is empty) the code still accumulates the Destroyer's length:
cell (0,0) of the code's map weighs 3, while the spec accumulation over
the remaining (empty) length list leaves it at 1. -/
theorem C3_counterexample :
    remaining_lengths [("Destroyer", 2)] [] = [] ∧
    pmGet (update_probability_map [("Destroyer", 2)] [] blankGrid) 0 0 = 3 ∧
    pmGet (specProbabilityMap (remaining_lengths [("Destroyer", 2)] []) blankGrid) 0 0 = 1 := by
  decide

/-- C3 (amended): update_probability_map accumulates placement counts for
every ship length in the configured SHIP_TYPES list, whether or not that
ship is still afloat in the opponent's fleet: it equals the spec's
accumulation run over all configured lengths, and it ignores the
opponent's fleet argument entirely. -/
theorem C3_amended (st : List (String × Nat)) (opp opp' : Fleet) (ag : Grid) :
    update_probability_map st opp ag = specProbabilityMap (st.map (fun e => e.2)) ag ∧
    update_probability_map st opp ag = update_probability_map st opp' ag :=
  ⟨update_eq_specProbabilityMap st opp ag, rfl⟩

end Battleship
